import Mathlib

/-!
Verification of the search-result acquisition pipeline of the
reporting-system repository: relevance scoring and filtering
(`app/mcp/processing/processor.py`), the search cache and key builder
(`app/mcp/search/cache.py`), and the retrying upstream client
(`app/mcp/search/google_client.py`).

Modelling conventions:
- Python floats are modelled by exact rationals (`ℚ`); every score the
  code manipulates is a small dyadic/decimal fraction, and the claims
  under test concern exact thresholds.
- Python dict payloads are modelled structurally; a `dict.get(k, d)`
  access whose key may be absent is modelled with `Option` when the
  code distinguishes presence, and with the defaulted value otherwise.
- Python's stable `list.sort(key=..., reverse=True)` is modelled by
  `List.insertionSort` with the descending-score relation, which is the
  same (unique) stable descending sort.
- The md5 digest applied to the serialized key string is kept abstract
  as a `digest : String → String` parameter: the key is a deterministic
  function of the serialized string, which is what the key-builder
  claims are about.
-/

/-! ### Relevance scorer, from `SearchResultProcessor._calculate_relevance_score` -/

/-- Lowercasing of a string, `str.lower` (character-wise, as in CPython for
the ASCII inputs used throughout). -/
def toLowerStr (s : String) : String := String.mk (s.data.map Char.toLower)

/-- A word character in the sense of the regex `\w` (ASCII range). -/
def isWordChar (c : Char) : Bool := c.isAlphanum || c == '_'

/-- Maximal runs of word characters, accumulator-based scan. -/
def tokenizeAux : List Char → List Char → List String
  | [], acc => if acc.isEmpty then [] else [String.mk acc.reverse]
  | c :: cs, acc =>
    if isWordChar c then tokenizeAux cs (c :: acc)
    else if acc.isEmpty then tokenizeAux cs []
    else String.mk acc.reverse :: tokenizeAux cs []

/-- Translation of `re.findall(r"\w+", s)`: the list of maximal word-character runs of `s`. -/
def findallWordRuns (s : String) : List String := tokenizeAux s.data []

/-- Translation of `re.findall(r"\w+", query.lower())` from the scorer. -/
def queryTerms (query : String) : List String := findallWordRuns (toLowerStr query)

/-- Python's substring test `needle in hay`. -/
def containsSub (hay needle : String) : Bool := decide (needle.data <:+: hay.data)

/-- Title loop of the scorer: `+0.2` per query term contained in the title,
plus `+0.3` when the term equals the whole title (checked inside the
containment branch, as in the source). -/
def titleScorePart (terms : List String) (title : String) : ℚ :=
  terms.foldl (fun acc term =>
    if containsSub title term then
      acc + 1/5 + (if term = title then 3/10 else 0)
    else acc) 0

/-- Snippet loop of the scorer: `+0.1` per contained query term. -/
def snippetScorePart (terms : List String) (snippet : String) : ℚ :=
  terms.foldl (fun acc term => if containsSub snippet term then acc + 1/10 else acc) 0

/-- Domain/URL loop of the scorer: `+0.1` per term in the display link and
`+0.05` per term in the link. -/
def domainScorePart (terms : List String) (displayLink link : String) : ℚ :=
  terms.foldl (fun acc term =>
    let acc1 := if containsSub displayLink term then acc + 1/10 else acc
    if containsSub link term then acc1 + 1/20 else acc1) 0

/-- A raw search-result item as read by the processor: the string fields are
the `item.get(k, "")`-defaulted values; `pagemap` presence is significant and
modelled with `Option`. -/
structure MetaTags where
  ogDescription : Option String
  description : Option String
deriving DecidableEq

structure PageMap where
  cseImage : Option String
  metatags : Option MetaTags
deriving DecidableEq

structure RawItem where
  title : String
  link : String
  displayLink : String
  snippet : String
  htmlSnippet : String
  pagemap : Option PageMap
deriving DecidableEq

/-- Model of `SearchResultProcessor._calculate_relevance_score(item, query)`. -/
def calculateRelevanceScore (item : RawItem) (query : String) : ℚ :=
  let terms := queryTerms query
  let score1 := (0 : ℚ) + min (1/2) (titleScorePart terms (toLowerStr item.title))
  let score2 := score1 + min (3/10) (snippetScorePart terms (toLowerStr item.snippet))
  let score3 := score2 +
    min (1/5) (domainScorePart terms (toLowerStr item.displayLink) (toLowerStr item.link))
  min 1 score3

/-! ### Result processing, from `SearchResultProcessor._process_raw_results` -/

structure ProcessedItem where
  title : String
  link : String
  displayLink : String
  snippet : String
  htmlSnippet : String
  relevanceScore : ℚ
  domain : String
  image : Option String
  metaDescription : Option String
deriving DecidableEq

/-- Model of `SearchResultProcessor._process_item(item, relevance_score)`. -/
def processItem (item : RawItem) (relevanceScore : ℚ) : ProcessedItem :=
  { title := item.title
    link := item.link
    displayLink := item.displayLink
    snippet := item.snippet
    htmlSnippet := item.htmlSnippet
    relevanceScore := relevanceScore
    domain :=
      if item.displayLink.data.contains '.' then
        String.mk (item.displayLink.data.takeWhile (fun c => c != '.'))
      else item.displayLink
    image := item.pagemap.bind PageMap.cseImage
    metaDescription :=
      item.pagemap.bind (fun pm =>
        pm.metatags.map (fun mt => mt.ogDescription.getD (mt.description.getD ""))) }

/-- Raw upstream payload as read by the processor: the two keys the code
looks at, each possibly absent. -/
structure SearchInfo where
  totalResults : ℕ
  searchTime : ℚ
  formattedSearchTime : String
deriving DecidableEq

structure RawResults where
  searchInformation : Option SearchInfo
  items : Option (List RawItem)
deriving DecidableEq

structure SearchResponse where
  query : String
  totalResults : ℕ
  searchTime : ℚ
  formattedSearchTime : String
  items : List ProcessedItem
deriving DecidableEq

/-- Descending order on relevance score, the sort key of
`processed_data["items"].sort(key=..., reverse=True)`. -/
def scoreDescRel (a b : ProcessedItem) : Prop := b.relevanceScore ≤ a.relevanceScore

instance : DecidableRel scoreDescRel := fun a b =>
  inferInstanceAs (Decidable (b.relevanceScore ≤ a.relevanceScore))

instance : IsTotal ProcessedItem scoreDescRel :=
  ⟨fun a b => (le_total a.relevanceScore b.relevanceScore).symm⟩

instance : IsTrans ProcessedItem scoreDescRel :=
  ⟨fun _ _ _ hab hbc => le_trans hbc hab⟩

/-- The body of the result loop: score, threshold check, allow-list check,
deny-list check, and item shaping, in source order.  A Python
`if filter_domains:` truthiness test on an optional list is an
`isEmpty` test here (`None` and `[]` behave identically in the source). -/
def keptItems (rawItems : List RawItem) (query : String)
    (filterDomains excludeDomains : List String) (minScore : ℚ) : List ProcessedItem :=
  rawItems.filterMap (fun item =>
    let score := calculateRelevanceScore item query
    if score < minScore then none
    else if !filterDomains.isEmpty &&
        !(filterDomains.any (fun d => containsSub item.displayLink d)) then none
    else if !excludeDomains.isEmpty &&
        (excludeDomains.any (fun d => containsSub item.displayLink d)) then none
    else some (processItem item score))

/-- Model of `SearchResultProcessor._process_raw_results`. -/
def processRawResults (raw : RawResults) (query : String)
    (filterDomains excludeDomains : List String) (minScore : ℚ) : SearchResponse :=
  let totalResults := (raw.searchInformation.map SearchInfo.totalResults).getD 0
  let searchTime := (raw.searchInformation.map SearchInfo.searchTime).getD 0
  let formattedSearchTime := (raw.searchInformation.map SearchInfo.formattedSearchTime).getD ""
  match raw.items with
  | none =>
    { query := query, totalResults := totalResults, searchTime := searchTime,
      formattedSearchTime := formattedSearchTime, items := [] }
  | some rawItems =>
    { query := query, totalResults := totalResults, searchTime := searchTime,
      formattedSearchTime := formattedSearchTime,
      items :=
        (keptItems rawItems query filterDomains excludeDomains minScore).insertionSort
          scoreDescRel }

/-! ### Cache key builder, from `SearchCache._generate_key` -/

/-- Order in which `sorted(params.items())` arranges the parameter pairs:
lexicographic on the `(name, value)` pair. -/
def paramLE (a b : String × String) : Prop := a.1 < b.1 ∨ (a.1 = b.1 ∧ a.2 ≤ b.2)

instance : DecidableRel paramLE := fun a b =>
  inferInstanceAs (Decidable (a.1 < b.1 ∨ (a.1 = b.1 ∧ a.2 ≤ b.2)))

instance : IsTotal (String × String) paramLE := by
  constructor
  intro a b
  rcases lt_trichotomy a.1 b.1 with h | h | h
  · exact Or.inl (Or.inl h)
  · rcases le_total a.2 b.2 with h2 | h2
    · exact Or.inl (Or.inr ⟨h, h2⟩)
    · exact Or.inr (Or.inr ⟨h.symm, h2⟩)
  · exact Or.inr (Or.inl h)

instance : IsTrans (String × String) paramLE := by
  constructor
  intro a b c hab hbc
  rcases hab with h1 | ⟨e1, l1⟩
  · rcases hbc with h2 | ⟨e2, _⟩
    · exact Or.inl (lt_trans h1 h2)
    · exact Or.inl (e2 ▸ h1)
  · rcases hbc with h2 | ⟨e2, l2⟩
    · exact Or.inl (e1 ▸ h2)
    · exact Or.inr ⟨e1.trans e2, le_trans l1 l2⟩

instance : IsAntisymm (String × String) paramLE := by
  constructor
  intro a b hab hba
  rcases hab with h1 | ⟨e1, l1⟩
  · rcases hba with h2 | ⟨e2, _⟩
    · exact absurd h2 (lt_asymm h1)
    · exact absurd h1 (e2 ▸ lt_irrefl b.1)
  · rcases hba with h2 | ⟨_, l2⟩
    · exact absurd h2 (e1 ▸ lt_irrefl a.1)
    · exact Prod.ext e1 (le_antisymm l1 l2)

/-- Model of `sorted(params.items())`. -/
def sortParams (params : List (String × String)) : List (String × String) :=
  params.insertionSort paramLE

/-- Python's `"|".join(parts)`. -/
def joinBar : List String → String
  | [] => ""
  | [s] => s
  | s :: s2 :: rest => s ++ "|" ++ joinBar (s2 :: rest)

/-- The string that `_generate_key` feeds to md5:
`"|".join(["query:" + query] + [f"{k}:{v}" for k, v in sorted(params)])`. -/
def generateKeyString (query : String) (params : List (String × String)) : String :=
  joinBar (("query:" ++ query) :: (sortParams params).map (fun kv => kv.1 ++ ":" ++ kv.2))

/-- Model of `SearchCache._generate_key`: `"search:" + md5(key_string).hexdigest()`,
with the md5 hex digest kept abstract as `digest`. -/
def generateKey (digest : String → String) (query : String)
    (params : List (String × String)) : String :=
  "search:" ++ digest (generateKeyString query params)

/-! ### Two-tier cache, from `SearchCache` (`cachetools.LRUCache` + optional Redis) -/

/-- State of `cachetools.LRUCache(maxsize=...)`: bounded association list in
recency order, most recently used first. -/
structure LRUCache (α : Type) where
  maxsize : ℕ
  entries : List (String × α)
deriving DecidableEq

/-- The read path `if key in mc: return mc[key]`: `__contains__` does not
touch recency, `__getitem__` moves the key to most-recently-used. -/
def lruGet (m : LRUCache α) (k : String) : Option α × LRUCache α :=
  match m.entries.find? (fun e => e.1 == k) with
  | none => (none, m)
  | some e => (some e.2, { m with entries := e :: m.entries.filter (fun x => x.1 != k) })

/-- Model of `mc[key] = v`: update-or-insert at most-recently-used position, then
evict least-recently-used entries (list tail) while over capacity. -/
def lruInsert (m : LRUCache α) (k : String) (v : α) : LRUCache α :=
  { m with entries := ((k, v) :: m.entries.filter (fun x => x.1 != k)).take m.maxsize }

/-- Model of `del mc[key]` (guarded by `if key in mc` in the source, so deleting an
absent key is a no-op here as there). -/
def lruDelete (m : LRUCache α) (k : String) : LRUCache α :=
  { m with entries := m.entries.filter (fun x => x.1 != k) }

/-- Model of `mc.clear()`. -/
def lruClear (m : LRUCache α) : LRUCache α := { m with entries := [] }

/-- Operations a client can perform on the local tier; used to state
reachability invariants. -/
inductive LRUOp (α : Type) where
  | get (k : String)
  | set (k : String) (v : α)
  | del (k : String)
  | clearAll

def applyOp (m : LRUCache α) : LRUOp α → LRUCache α
  | .get k => (lruGet m k).2
  | .set k v => lruInsert m k v
  | .del k => lruDelete m k
  | .clearAll => lruClear m

def applyOps (m : LRUCache α) (ops : List (LRUOp α)) : LRUCache α :=
  ops.foldl applyOp m

/-- Model of the `SearchCache` state: the enabled flag, the in-memory LRU tier, and the
optional Redis tier (an association map; the TTL only affects expiry, which
none of the claims exercise). -/
structure SearchCacheState (α : Type) where
  enabled : Bool
  memory : LRUCache α
  redis : Option (List (String × α))
deriving DecidableEq

/-- Model of `SearchCache.get(query, **params)`: memory tier first (refreshing
recency), then Redis, promoting a Redis hit into the memory tier. -/
def cacheGet (st : SearchCacheState α) (query : String)
    (params : List (String × String)) : Option α × SearchCacheState α :=
  if st.enabled then
    let key := generateKeyString query params
    let res := lruGet st.memory key
    match res.1 with
    | some v => (some v, { st with memory := res.2 })
    | none =>
      match st.redis with
      | some r =>
        match r.find? (fun e => e.1 == key) with
        | some e => (some e.2, { st with memory := lruInsert st.memory key e.2 })
        | none => (none, st)
      | none => (none, st)
  else (none, st)

/-- Model of `SearchCache.set(query, result, **params)`: write memory tier, and Redis
when configured. -/
def cacheSet (st : SearchCacheState α) (query : String) (result : α)
    (params : List (String × String)) : SearchCacheState α :=
  if st.enabled then
    let key := generateKeyString query params
    { st with
      memory := lruInsert st.memory key result
      redis := st.redis.map (fun r => (key, result) :: r.filter (fun e => e.1 != key)) }
  else st

/-- Model of `SearchCache.clear(query, **params)`: with a query, delete that key from
both tiers; with `None`, purge the memory tier and flush Redis. -/
def cacheClear (st : SearchCacheState α) (query : Option String)
    (params : List (String × String)) : SearchCacheState α :=
  if st.enabled then
    match query with
    | none => { st with memory := lruClear st.memory, redis := st.redis.map (fun _ => []) }
    | some q =>
      let key := generateKeyString q params
      { st with
        memory := lruDelete st.memory key
        redis := st.redis.map (fun r => r.filter (fun e => e.1 != key)) }
  else st

/-! ### `cached_search` decorator and the processing pipeline -/

/-- A search client plus the number of upstream invocations made so far. -/
structure ClientState (α : Type) where
  cache : SearchCacheState α
  upstreamCalls : ℕ
deriving DecidableEq

/-- The `cached_search` wrapper: `cache.get`, a Python truthiness test on the
hit (`if cached_result:`), and on fall-through the upstream call followed by
`cache.set`.  The payload type and its truthiness test are parameters, matching
the duck-typed wrapper. -/
def cachedSearch (truthy : α → Bool) (upstream : String → List (String × String) → α)
    (st : ClientState α) (query : String) (params : List (String × String)) :
    α × ClientState α :=
  let res := cacheGet st.cache query params
  match res.1 with
  | some v =>
    if truthy v then (v, { st with cache := res.2 })
    else
      let r := upstream query params
      (r, { cache := cacheSet res.2 query r params, upstreamCalls := st.upstreamCalls + 1 })
  | none =>
    let r := upstream query params
    (r, { cache := cacheSet res.2 query r params, upstreamCalls := st.upstreamCalls + 1 })

/-- Python truthiness of a dict payload (used where the cached payload is a
plain JSON-like mapping). -/
def pyDictTruthy (d : List (String × String)) : Bool := !d.isEmpty

/-- Python truthiness of a raw Google payload, restricted to the keys the
pipeline reads: the dict is falsy only when empty. -/
def rawTruthy (r : RawResults) : Bool := r.searchInformation.isSome || r.items.isSome

/-- Model of `SearchResultProcessor.process_query`: the (cached, retrying) client call
followed by `_process_raw_results`.  The wrapper's cache key is built from the
query and the keyword arguments passed to `search` — `num_results` and any
extra kwargs, but not the filter parameters, which never reach `search`. -/
def processQuery (upstream : String → List (String × String) → RawResults)
    (st : ClientState RawResults) (query : String) (numResults : ℕ)
    (filterDomains excludeDomains : List String) (minScore : ℚ)
    (kwargs : List (String × String)) : SearchResponse × ClientState RawResults :=
  let params := ("num_results", toString numResults) :: kwargs
  let r := cachedSearch rawTruthy upstream st query params
  (processRawResults r.1 query filterDomains excludeDomains minScore, r.2)

/-! ### Retry engine, from `tenacity.retry(stop=stop_after_attempt(max_retries), reraise=True)` -/

/-- One run of the tenacity loop: `f i` is the outcome of attempt `i`
(0-based); the second component counts attempts made.  With fuel `n` there
are up to `n + 1` attempts; when the last allowed attempt fails its error is
re-raised (`reraise=True`). -/
def retryGo (f : ℕ → Except ε α) (i : ℕ) : ℕ → Except ε α × ℕ
  | 0 => (f i, 1)
  | fuel + 1 =>
    match f i with
    | .ok a => (.ok a, 1)
    | .error _ =>
      let r := retryGo f (i + 1) fuel
      (r.1, r.2 + 1)

/-- Model of `@retry(stop=stop_after_attempt(maxAttempts), reraise=True)` around an
upstream call whose attempt outcomes are `f`.  The decorator retries every
exception: the wrapped body's `except` clauses re-raise unconditionally and no
`retry=` predicate is configured. -/
def retryCall (f : ℕ → Except ε α) (maxAttempts : ℕ) : Except ε α × ℕ :=
  retryGo f 0 (maxAttempts - 1)

/-- Error classification from the spec's taxonomy; the retry engine above
does not consult it. -/
inductive ErrKind where
  | transient
  | fatal
deriving DecidableEq

/-! ### Concrete fixtures used by the example-based claims -/

/-- The worked example of the spec: query `"oil spill"`. -/
def oilSpillItem : RawItem :=
  ⟨"Major Oil Spill Reported", "https://news.example.com/oil-spill",
    "news.example.com", "An oil spill occurred near the coast", "", none⟩

/-- Item scoring 0.9 for query `"alpha beta"`: exact-title bonus (0.5 cap),
0.2 from the snippet, 0.2 from the display domain. -/
def itemAlphaTitle : RawItem :=
  ⟨"alpha", "https://x.com/p", "alpha.beta.com", "alpha beta here", "", none⟩

/-- Item scoring 0.4 for query `"alpha beta"`: two title hits only. -/
def itemAB : RawItem :=
  ⟨"alpha beta", "https://z.com", "z.com", "nothing here", "", none⟩

/-- Item scoring 0.7 for query `"alpha beta"`: 0.4 title, 0.2 snippet,
0.1 from two link hits. -/
def itemABLink : RawItem :=
  ⟨"alpha beta y", "https://q.com/alpha-beta", "q.com", "alpha beta z", "", none⟩

def exampleRawABC : RawResults := ⟨some ⟨3, 0, "0"⟩, some [itemAlphaTitle, itemAB, itemABLink]⟩

/-- An item with no overlap with the query `"zzz"` (score 0). -/
def plainItem : RawItem := ⟨"hello", "https://h.com/x", "h.com", "world", "", none⟩

def plainRaw : RawResults := ⟨some ⟨1, 0, "0"⟩, some [plainItem]⟩

def plainUpstream : String → List (String × String) → RawResults := fun _ _ => plainRaw

/-- A fresh enabled client: empty memory tier of capacity 2, no Redis. -/
def freshClient : ClientState RawResults := ⟨⟨true, ⟨2, []⟩, none⟩, 0⟩

/-! ### Helper lemmas: scorer bounds -/

theorem foldl_le_of_step_le (g : ℚ → String → ℚ) (hg : ∀ a t, a ≤ g a t) :
    ∀ (l : List String) (acc : ℚ), acc ≤ l.foldl g acc := by
  intro l
  induction l with
  | nil => intro acc; exact le_refl acc
  | cons t l ih =>
    intro acc
    calc acc ≤ g acc t := hg acc t
    _ ≤ (t :: l).foldl g acc := by rw [List.foldl_cons]; exact ih (g acc t)

theorem titleScorePart_nonneg (terms : List String) (title : String) :
    0 ≤ titleScorePart terms title := by
  apply foldl_le_of_step_le
  intro a t
  dsimp only
  split
  · split <;> linarith
  · exact le_refl a

theorem snippetScorePart_nonneg (terms : List String) (snippet : String) :
    0 ≤ snippetScorePart terms snippet := by
  apply foldl_le_of_step_le
  intro a t
  dsimp only
  split <;> linarith

theorem domainScorePart_nonneg (terms : List String) (displayLink link : String) :
    0 ≤ domainScorePart terms displayLink link := by
  apply foldl_le_of_step_le
  intro a t
  dsimp only
  split <;> split <;> linarith

/-- C4: for every item and query the relevance score is a pure function of
its two inputs — the same call yields the same rational — and the result
always lies in the closed interval `[0, 1]`. -/
theorem c4_score_pure_and_bounded (item : RawItem) (query : String) :
    calculateRelevanceScore item query = calculateRelevanceScore item query ∧
    0 ≤ calculateRelevanceScore item query ∧ calculateRelevanceScore item query ≤ 1 := by
  refine ⟨rfl, ?_, ?_⟩
  · dsimp only [calculateRelevanceScore]
    have h1 : (0 : ℚ) ≤ min (1/2) (titleScorePart (queryTerms query) (toLowerStr item.title)) :=
      le_min (by norm_num) (titleScorePart_nonneg _ _)
    have h2 : (0 : ℚ) ≤ min (3/10) (snippetScorePart (queryTerms query) (toLowerStr item.snippet)) :=
      le_min (by norm_num) (snippetScorePart_nonneg _ _)
    have h3 : (0 : ℚ) ≤ min (1/5)
        (domainScorePart (queryTerms query) (toLowerStr item.displayLink) (toLowerStr item.link)) :=
      le_min (by norm_num) (domainScorePart_nonneg _ _ _)
    exact le_min (by norm_num) (by linarith)
  · exact min_le_left _ _

/-! ### Helper lemmas: concrete score evaluations -/

theorem oilSpill_title_part :
    titleScorePart (queryTerms "oil spill") (toLowerStr oilSpillItem.title) = 2/5 := by
  have hterms : queryTerms "oil spill" = ["oil", "spill"] := rfl
  have h1 : containsSub (toLowerStr "Major Oil Spill Reported") "oil" = true := rfl
  have h2 : containsSub (toLowerStr "Major Oil Spill Reported") "spill" = true := rfl
  have e1 : ¬(("oil" : String) = toLowerStr "Major Oil Spill Reported") := by decide
  have e2 : ¬(("spill" : String) = toLowerStr "Major Oil Spill Reported") := by decide
  show titleScorePart (queryTerms "oil spill") (toLowerStr "Major Oil Spill Reported") = 2/5
  rw [hterms]
  simp only [titleScorePart, List.foldl_cons, List.foldl_nil, h1, h2, e1, e2, if_true,
    if_false, ite_true, ite_false]
  norm_num

theorem oilSpill_snippet_part :
    snippetScorePart (queryTerms "oil spill") (toLowerStr oilSpillItem.snippet) = 1/5 := by
  have hterms : queryTerms "oil spill" = ["oil", "spill"] := rfl
  have h1 : containsSub (toLowerStr "An oil spill occurred near the coast") "oil" = true := rfl
  have h2 : containsSub (toLowerStr "An oil spill occurred near the coast") "spill" = true := rfl
  show snippetScorePart (queryTerms "oil spill")
      (toLowerStr "An oil spill occurred near the coast") = 1/5
  rw [hterms]
  simp only [snippetScorePart, List.foldl_cons, List.foldl_nil, h1, h2, if_true, ite_true]
  norm_num

theorem oilSpill_domain_part :
    domainScorePart (queryTerms "oil spill") (toLowerStr oilSpillItem.displayLink)
      (toLowerStr oilSpillItem.link) = 1/10 := by
  have hterms : queryTerms "oil spill" = ["oil", "spill"] := rfl
  have h1 : containsSub (toLowerStr "news.example.com") "oil" = false := rfl
  have h2 : containsSub (toLowerStr "news.example.com") "spill" = false := rfl
  have h3 : containsSub (toLowerStr "https://news.example.com/oil-spill") "oil" = true := rfl
  have h4 : containsSub (toLowerStr "https://news.example.com/oil-spill") "spill" = true := rfl
  show domainScorePart (queryTerms "oil spill") (toLowerStr "news.example.com")
      (toLowerStr "https://news.example.com/oil-spill") = 1/10
  rw [hterms]
  simp only [domainScorePart, List.foldl_cons, List.foldl_nil, h1, h2, h3, h4, if_true,
    if_false, ite_true, ite_false]
  norm_num

theorem oilSpill_score : calculateRelevanceScore oilSpillItem "oil spill" = 7/10 := by
  dsimp only [calculateRelevanceScore]
  rw [oilSpill_title_part, oilSpill_snippet_part, oilSpill_domain_part]
  norm_num [min_def]

/-- C3 counterexample: on the spec's own worked example the relevance score
equals exactly 0.7, so it is not strictly between 0.5 and 0.7 — the upper
bound is attained, refuting the claimed strict inequality. -/
theorem c3_oil_spill_score_counterexample :
    calculateRelevanceScore oilSpillItem "oil spill" = 7/10 ∧
    ¬(1/2 < calculateRelevanceScore oilSpillItem "oil spill" ∧
      calculateRelevanceScore oilSpillItem "oil spill" < 7/10) := by
  refine ⟨oilSpill_score, ?_⟩
  rw [oilSpill_score]
  norm_num

/-- C3 amended: for the spec's worked example the capped title contribution
is 0.4, the capped snippet contribution is 0.2, the capped domain/URL
contribution is 0.1 (two per-token link hits of 0.05), and the total is
exactly 0.7 — inside the half-open interval (0.5, 0.7]. -/
theorem c3_oil_spill_score_exact :
    min (1/2) (titleScorePart (queryTerms "oil spill") (toLowerStr oilSpillItem.title)) = 2/5 ∧
    min (3/10) (snippetScorePart (queryTerms "oil spill") (toLowerStr oilSpillItem.snippet))
      = 1/5 ∧
    min (1/5) (domainScorePart (queryTerms "oil spill") (toLowerStr oilSpillItem.displayLink)
      (toLowerStr oilSpillItem.link)) = 1/10 ∧
    calculateRelevanceScore oilSpillItem "oil spill" = 7/10 ∧
    1/2 < calculateRelevanceScore oilSpillItem "oil spill" ∧
    calculateRelevanceScore oilSpillItem "oil spill" ≤ 7/10 := by
  refine ⟨?_, ?_, ?_, oilSpill_score, ?_, ?_⟩
  · rw [oilSpill_title_part]; norm_num [min_def]
  · rw [oilSpill_snippet_part]; norm_num [min_def]
  · rw [oilSpill_domain_part]; norm_num [min_def]
  · rw [oilSpill_score]; norm_num
  · rw [oilSpill_score]

/-! ### Helper lemmas: stability of the (insertion-sort) stable sort -/

theorem filter_orderedInsert_pos (r : α → α → Prop) [DecidableRel r] (p : α → Bool)
    (a : α) (l : List α) (ha : p a = true) (hall : ∀ b, p b = true → r a b) :
    (l.orderedInsert r a).filter p = a :: l.filter p := by
  rw [List.orderedInsert_eq_take_drop, List.filter_append, List.filter_cons]
  have htw : (l.takeWhile (fun b => decide ¬r a b)).filter p = [] := by
    rw [List.filter_eq_nil_iff]
    intro b hb hpb
    have h1 := List.mem_takeWhile_imp hb
    simp only [decide_eq_true_eq] at h1
    exact h1 (hall b hpb)
  rw [htw, if_pos ha, List.nil_append]
  congr 1
  conv_rhs => rw [← List.takeWhile_append_dropWhile (fun b => decide ¬r a b) l]
  rw [List.filter_append, htw, List.nil_append]

theorem filter_orderedInsert_neg (r : α → α → Prop) [DecidableRel r] (p : α → Bool)
    (a : α) (l : List α) (ha : p a = false) :
    (l.orderedInsert r a).filter p = l.filter p := by
  rw [List.orderedInsert_eq_take_drop, List.filter_append, List.filter_cons, if_neg (by simp [ha]),
    ← List.filter_append, List.takeWhile_append_dropWhile]

theorem filter_insertionSort (r : α → α → Prop) [DecidableRel r] (p : α → Bool)
    (hp : ∀ a b, p a = true → p b = true → r a b) :
    ∀ l : List α, (l.insertionSort r).filter p = l.filter p := by
  intro l
  induction l with
  | nil => rfl
  | cons a l ih =>
    show ((l.insertionSort r).orderedInsert r a).filter p = (a :: l).filter p
    cases ha : p a with
    | true =>
      rw [filter_orderedInsert_pos r p a _ ha (fun b hb => hp a b ha hb), ih,
        List.filter_cons, if_pos ha]
    | false =>
      rw [filter_orderedInsert_neg r p a _ ha, ih, List.filter_cons, if_neg (by simp [ha])]

theorem alphaTitle_score : calculateRelevanceScore itemAlphaTitle "alpha beta" = 9/10 := by
  have hterms : queryTerms "alpha beta" = ["alpha", "beta"] := rfl
  have l1 : toLowerStr itemAlphaTitle.title = "alpha" := rfl
  have l2 : toLowerStr itemAlphaTitle.snippet = "alpha beta here" := rfl
  have l3 : toLowerStr itemAlphaTitle.displayLink = "alpha.beta.com" := rfl
  have l4 : toLowerStr itemAlphaTitle.link = "https://x.com/p" := rfl
  have c1 : containsSub "alpha" "alpha" = true := rfl
  have c2 : containsSub "alpha" "beta" = false := rfl
  have c3 : containsSub "alpha beta here" "alpha" = true := rfl
  have c4 : containsSub "alpha beta here" "beta" = true := rfl
  have c5 : containsSub "alpha.beta.com" "alpha" = true := rfl
  have c6 : containsSub "alpha.beta.com" "beta" = true := rfl
  have c7 : containsSub "https://x.com/p" "alpha" = false := rfl
  have c8 : containsSub "https://x.com/p" "beta" = false := rfl
  have e2 : ¬(("beta" : String) = "alpha") := by decide
  dsimp only [calculateRelevanceScore]
  rw [hterms, l1, l2, l3, l4]
  simp only [titleScorePart, snippetScorePart, domainScorePart, List.foldl_cons, List.foldl_nil,
    c1, c2, c3, c4, c5, c6, c7, c8, e2, if_true, if_false, ite_true, ite_false,
    eq_self_iff_true]
  norm_num [min_def]

theorem ab_score : calculateRelevanceScore itemAB "alpha beta" = 2/5 := by
  have hterms : queryTerms "alpha beta" = ["alpha", "beta"] := rfl
  have l1 : toLowerStr itemAB.title = "alpha beta" := rfl
  have l2 : toLowerStr itemAB.snippet = "nothing here" := rfl
  have l3 : toLowerStr itemAB.displayLink = "z.com" := rfl
  have l4 : toLowerStr itemAB.link = "https://z.com" := rfl
  have c1 : containsSub "alpha beta" "alpha" = true := rfl
  have c2 : containsSub "alpha beta" "beta" = true := rfl
  have c3 : containsSub "nothing here" "alpha" = false := rfl
  have c4 : containsSub "nothing here" "beta" = false := rfl
  have c5 : containsSub "z.com" "alpha" = false := rfl
  have c6 : containsSub "z.com" "beta" = false := rfl
  have c7 : containsSub "https://z.com" "alpha" = false := rfl
  have c8 : containsSub "https://z.com" "beta" = false := rfl
  have e1 : ¬(("alpha" : String) = "alpha beta") := by decide
  have e2 : ¬(("beta" : String) = "alpha beta") := by decide
  dsimp only [calculateRelevanceScore]
  rw [hterms, l1, l2, l3, l4]
  simp only [titleScorePart, snippetScorePart, domainScorePart, List.foldl_cons, List.foldl_nil,
    c1, c2, c3, c4, c5, c6, c7, c8, e1, e2, if_true, if_false, ite_true, ite_false]
  norm_num [min_def]

theorem abLink_score : calculateRelevanceScore itemABLink "alpha beta" = 7/10 := by
  have hterms : queryTerms "alpha beta" = ["alpha", "beta"] := rfl
  have l1 : toLowerStr itemABLink.title = "alpha beta y" := rfl
  have l2 : toLowerStr itemABLink.snippet = "alpha beta z" := rfl
  have l3 : toLowerStr itemABLink.displayLink = "q.com" := rfl
  have l4 : toLowerStr itemABLink.link = "https://q.com/alpha-beta" := rfl
  have c1 : containsSub "alpha beta y" "alpha" = true := rfl
  have c2 : containsSub "alpha beta y" "beta" = true := rfl
  have c3 : containsSub "alpha beta z" "alpha" = true := rfl
  have c4 : containsSub "alpha beta z" "beta" = true := rfl
  have c5 : containsSub "q.com" "alpha" = false := rfl
  have c6 : containsSub "q.com" "beta" = false := rfl
  have c7 : containsSub "https://q.com/alpha-beta" "alpha" = true := rfl
  have c8 : containsSub "https://q.com/alpha-beta" "beta" = true := rfl
  have e1 : ¬(("alpha" : String) = "alpha beta y") := by decide
  have e2 : ¬(("beta" : String) = "alpha beta y") := by decide
  dsimp only [calculateRelevanceScore]
  rw [hterms, l1, l2, l3, l4]
  simp only [titleScorePart, snippetScorePart, domainScorePart, List.foldl_cons, List.foldl_nil,
    c1, c2, c3, c4, c5, c6, c7, c8, e1, e2, if_true, if_false, ite_true, ite_false]
  norm_num [min_def]

theorem plain_score : calculateRelevanceScore plainItem "zzz" = 0 := by
  have hterms : queryTerms "zzz" = ["zzz"] := rfl
  have l1 : toLowerStr plainItem.title = "hello" := rfl
  have l2 : toLowerStr plainItem.snippet = "world" := rfl
  have l3 : toLowerStr plainItem.displayLink = "h.com" := rfl
  have l4 : toLowerStr plainItem.link = "https://h.com/x" := rfl
  have c1 : containsSub "hello" "zzz" = false := rfl
  have c2 : containsSub "world" "zzz" = false := rfl
  have c3 : containsSub "h.com" "zzz" = false := rfl
  have c4 : containsSub "https://h.com/x" "zzz" = false := rfl
  dsimp only [calculateRelevanceScore]
  rw [hterms, l1, l2, l3, l4]
  simp only [titleScorePart, snippetScorePart, domainScorePart, List.foldl_cons, List.foldl_nil,
    c1, c2, c3, c4, if_false, ite_false]
  norm_num [min_def]

/-- C5: the processed items are exactly the threshold/allow/deny survivors
(`keptItems`, the literal translation of the filter loop), as a permutation;
they are ordered descending by relevance score; for any fixed score value the
survivors with that score keep their original upstream order (stability); and
on items scored [0.9, 0.4, 0.7] with `min_relevance_score = 0.5` the response
holds exactly two items in order [0.9, 0.7]. -/
theorem c5_filter_sort_order :
    (∀ (raw : RawResults) (query : String) (fd ed : List String) (ms : ℚ),
      ((processRawResults raw query fd ed ms).items).Perm
        (keptItems (raw.items.getD []) query fd ed ms)) ∧
    (∀ (raw : RawResults) (query : String) (fd ed : List String) (ms : ℚ),
      List.Pairwise (fun a b => b.relevanceScore ≤ a.relevanceScore)
        (processRawResults raw query fd ed ms).items) ∧
    (∀ (raw : RawResults) (query : String) (fd ed : List String) (ms s : ℚ),
      (processRawResults raw query fd ed ms).items.filter
          (fun it => decide (it.relevanceScore = s)) =
        (keptItems (raw.items.getD []) query fd ed ms).filter
          (fun it => decide (it.relevanceScore = s))) ∧
    (processRawResults exampleRawABC "alpha beta" [] [] (1/2)).items.map
      ProcessedItem.relevanceScore = [9/10, 7/10] := by
  refine ⟨?_, ?_, ?_, ?_⟩
  · rintro ⟨si, items⟩ query fd ed ms
    cases items with
    | none => exact List.Perm.refl _
    | some rawItems =>
      dsimp only [processRawResults]
      exact List.perm_insertionSort scoreDescRel _
  · rintro ⟨si, items⟩ query fd ed ms
    cases items with
    | none => exact List.Pairwise.nil
    | some rawItems =>
      dsimp only [processRawResults]
      exact List.sorted_insertionSort scoreDescRel _
  · rintro ⟨si, items⟩ query fd ed ms s
    cases items with
    | none => rfl
    | some rawItems =>
      dsimp only [processRawResults]
      refine filter_insertionSort scoreDescRel _ ?_ _
      intro a b ha hb
      simp only [decide_eq_true_eq] at ha hb
      exact le_of_eq (hb.trans ha.symm)
  · have hk : keptItems [itemAlphaTitle, itemAB, itemABLink] "alpha beta" [] [] (1/2) =
        [processItem itemAlphaTitle (9/10), processItem itemABLink (7/10)] := by
      norm_num [keptItems, List.filterMap_cons, List.filterMap_nil, alphaTitle_score, ab_score,
        abLink_score]
    show ((keptItems [itemAlphaTitle, itemAB, itemABLink] "alpha beta" [] []
        (1/2)).insertionSort scoreDescRel).map ProcessedItem.relevanceScore = [9/10, 7/10]
    rw [hk]
    norm_num [List.insertionSort, List.orderedInsert, scoreDescRel, processItem]

/-- C6 counterexample: the serialization that is fed to md5 is not injective,
so the key builder cannot yield a different key for every change of query or
parameters: the query `"a|b:c"` with no parameters and the query `"a"` with
parameter `b = c` serialize to the identical key string (delimiter
injection), hence receive the identical md5-derived key. -/
theorem c6_key_collision_counterexample :
    generateKeyString "a|b:c" [] = generateKeyString "a" [("b", "c")] ∧
    ("a|b:c", ([] : List (String × String))) ≠ ("a", [("b", "c")]) := by
  exact ⟨rfl, by decide⟩

/-- C6 amended: the key is invariant under permutation of the parameter list
(for any digest function); an empty parameter set serializes differently from
any non-empty parameter set with the same query; but distinctness for any
change of query or parameters fails in general — the concrete delimiter
collision gives two different inputs with the identical key for every digest. -/
theorem c6_key_builder_properties :
    (∀ (digest : String → String) (q : String) (l₁ l₂ : List (String × String)),
      l₁.Perm l₂ → generateKey digest q l₁ = generateKey digest q l₂) ∧
    (∀ (q : String) (kv : String × String) (l : List (String × String)),
      generateKeyString q [] ≠ generateKeyString q (kv :: l)) ∧
    (∀ digest : String → String,
      generateKey digest "a|b:c" [] = generateKey digest "a" [("b", "c")]) := by
  refine ⟨?_, ?_, fun _ => rfl⟩
  · intro digest q l₁ l₂ hperm
    have hsort : sortParams l₁ = sortParams l₂ :=
      @List.eq_of_perm_of_sorted _ paramLE _ _ _
        (((List.perm_insertionSort paramLE l₁).trans hperm).trans
          (List.perm_insertionSort paramLE l₂).symm)
        (List.sorted_insertionSort paramLE l₁)
        (List.sorted_insertionSort paramLE l₂)
    unfold generateKey generateKeyString
    rw [hsort]
  · intro q kv l heq
    obtain ⟨y, t, hyt⟩ : ∃ y t, sortParams (kv :: l) = y :: t := by
      cases hs : sortParams (kv :: l) with
      | nil =>
        exfalso
        have hlen : (sortParams (kv :: l)).length = (kv :: l).length :=
          List.length_insertionSort paramLE (kv :: l)
        rw [hs] at hlen
        simp at hlen
      | cons y t => exact ⟨y, t, rfl⟩
    unfold generateKeyString at heq
    rw [hyt] at heq
    have hbar : ("|" : String).length = 1 := rfl
    have hlen := congrArg String.length heq
    simp only [sortParams, List.insertionSort, joinBar, List.map_cons,
      String.length_append, hbar] at hlen
    omega

/-- C6 witness: permutation invariance applied at a concrete two-parameter
mapping supplied in two different orders. -/
theorem c6_key_builder_properties_witness :
    ([("a", "1"), ("b", "2")] : List (String × String)).Perm [("b", "2"), ("a", "1")] ∧
    generateKey (fun s => s) "q" [("a", "1"), ("b", "2")] =
      generateKey (fun s => s) "q" [("b", "2"), ("a", "1")] :=
  ⟨by decide, c6_key_builder_properties.1 (fun s => s) "q" _ _ (by decide)⟩

/-! ### Helper lemmas: LRU and cache behaviour -/

theorem find?_filter_bne (k : String) (l : List (String × α)) :
    (l.filter (fun e => e.1 != k)).find? (fun e => e.1 == k) = none := by
  rw [List.find?_eq_none]
  intro x hx
  have h2 := (List.mem_filter.mp hx).2
  simp only [bne_iff_ne, ne_eq] at h2
  simp only [beq_iff_eq]
  exact h2

theorem lruGet_lruInsert_same (m : LRUCache α) (k : String) (v : α) (h : 1 ≤ m.maxsize) :
    (lruGet (lruInsert m k v) k).1 = some v := by
  obtain ⟨n, hn⟩ : ∃ n, m.maxsize = n + 1 := ⟨m.maxsize - 1, by omega⟩
  have hfind : ((((k, v) :: m.entries.filter (fun x => x.1 != k)).take m.maxsize).find?
      (fun e => e.1 == k)) = some (k, v) := by
    rw [hn, List.take_succ_cons]
    exact List.find?_cons_of_pos _ (by simp)
  dsimp only [lruGet, lruInsert]
  rw [hfind]

theorem lruGet_lruDelete_same (m : LRUCache α) (k : String) :
    (lruGet (lruDelete m k) k).1 = none := by
  dsimp only [lruGet, lruDelete]
  rw [find?_filter_bne]

/-- C7: with caching enabled and a usable memory tier, `set` followed by
`get` of the same (query, params) returns the stored payload; clearing that
key and then getting returns absent; and a full clear (no key) makes a
subsequent get of any key return absent. -/
theorem c7_cache_round_trip (st : SearchCacheState α) (q : String) (v : α)
    (ps : List (String × String)) (he : st.enabled = true) (hc : 1 ≤ st.memory.maxsize) :
    (cacheGet (cacheSet st q v ps) q ps).1 = some v ∧
    (cacheGet (cacheClear (cacheSet st q v ps) (some q) ps) q ps).1 = none ∧
    (∀ (st' : SearchCacheState α) (ps₀ q₂ps : List (String × String)) (q₂ : String),
      (cacheGet (cacheClear st' none ps₀) q₂ q₂ps).1 = none) := by
  refine ⟨?_, ?_, ?_⟩
  · dsimp only [cacheSet, cacheGet]
    simp only [he, if_true, ite_true]
    rw [lruGet_lruInsert_same st.memory (generateKeyString q ps) v hc]
  · dsimp only [cacheSet, cacheClear, cacheGet]
    simp only [he, if_true, ite_true]
    rw [lruGet_lruDelete_same]
    cases hred : st.redis with
    | none => simp [hred]
    | some r =>
      have hff : List.find? (fun _ : String × α => false) r = none :=
        List.find?_eq_none.mpr (fun x _ => by simp)
      simp [hred, hff]
  · intro st' ps₀ q₂ps q₂
    dsimp only [cacheClear, cacheGet]
    cases hen : st'.enabled with
    | false => simp [hen]
    | true =>
      simp only [hen, if_true, ite_true]
      dsimp only [lruClear, lruGet]
      simp only [List.find?_nil]
      cases hred : st'.redis with
      | none => simp [hred]
      | some r => simp [hred]

/-- C7 witness: the round-trip applied to a concrete enabled cache (capacity
2, empty, with a Redis tier) at key ("a", []) and payload 7. -/
theorem c7_cache_round_trip_witness :
    ((⟨true, ⟨2, []⟩, some []⟩ : SearchCacheState ℕ).enabled = true ∧
      1 ≤ (⟨true, ⟨2, []⟩, some []⟩ : SearchCacheState ℕ).memory.maxsize) ∧
    (cacheGet (cacheSet (⟨true, ⟨2, []⟩, some []⟩ : SearchCacheState ℕ) "a" 7 []) "a" []).1 =
      some 7 :=
  ⟨⟨rfl, by decide⟩, (c7_cache_round_trip _ "a" 7 [] rfl (by decide)).1⟩

theorem applyOp_maxsize (m : LRUCache α) (o : LRUOp α) : (applyOp m o).maxsize = m.maxsize := by
  cases o with
  | get k =>
    dsimp only [applyOp, lruGet]
    cases m.entries.find? (fun e => e.1 == k) <;> rfl
  | set k v => rfl
  | del k => rfl
  | clearAll => rfl

theorem applyOp_length_le (m : LRUCache α) (o : LRUOp α)
    (h : m.entries.length ≤ m.maxsize) :
    (applyOp m o).entries.length ≤ m.maxsize := by
  cases o with
  | get k =>
    dsimp only [applyOp, lruGet]
    cases hf : m.entries.find? (fun e => e.1 == k) with
    | none => exact h
    | some e =>
      dsimp only
      have hmem : e ∈ m.entries := List.mem_of_find?_eq_some hf
      have hbeq := List.find?_some hf
      have hlt : (m.entries.filter (fun x => x.1 != k)).length < m.entries.length := by
        refine List.length_filter_lt_length_iff_exists.mpr ⟨e, hmem, ?_⟩
        simp only [bne, hbeq, Bool.not_true, Bool.false_eq_true, not_false_eq_true]
      simp only [List.length_cons]
      omega
  | set k v =>
    dsimp only [applyOp, lruInsert]
    calc ((((k, v) :: m.entries.filter (fun x => x.1 != k)).take m.maxsize)).length
        ≤ m.maxsize := by
          rw [List.length_take]
          exact min_le_left _ _
  | del k =>
    dsimp only [applyOp, lruDelete]
    exact le_trans (List.length_filter_le _ _) h
  | clearAll => exact Nat.zero_le _

theorem applyOps_length_le (ops : List (LRUOp α)) :
    ∀ (m : LRUCache α), m.entries.length ≤ m.maxsize →
      (applyOps m ops).entries.length ≤ m.maxsize := by
  induction ops with
  | nil => intro m h; exact h
  | cons o ops ih =>
    intro m h
    show (applyOps (applyOp m o) ops).entries.length ≤ m.maxsize
    have h1 := ih (applyOp m o) (by rw [applyOp_maxsize]; exact applyOp_length_le m o h)
    rwa [applyOp_maxsize] at h1

theorem lruInsert_fresh (m : LRUCache α) (k : String) (v : α)
    (hk : k ∉ m.entries.map Prod.fst) :
    (lruInsert m k v).entries = ((k, v) :: m.entries).take m.maxsize := by
  dsimp only [lruInsert]
  have hf : m.entries.filter (fun x => x.1 != k) = m.entries := by
    refine List.filter_eq_self.mpr (fun e he => ?_)
    rw [bne_iff_ne]
    intro hek
    exact hk (hek ▸ List.mem_map_of_mem Prod.fst he)
  rw [hf]

theorem take_append_take (n : ℕ) (a b : List β) :
    (a ++ b.take n).take n = (a ++ b).take n := by
  rw [List.take_append_eq_append_take, List.take_take,
    min_eq_left (Nat.sub_le n a.length), ← List.take_append_eq_append_take]

theorem applyOps_set_fresh :
    ∀ (kvs : List (String × α)) (m : LRUCache α), (kvs.map Prod.fst).Nodup →
      (∀ k ∈ kvs.map Prod.fst, k ∉ m.entries.map Prod.fst) →
      m.entries.length ≤ m.maxsize →
      (applyOps m (kvs.map (fun kv => LRUOp.set kv.1 kv.2))).entries =
        (kvs.reverse ++ m.entries).take m.maxsize := by
  intro kvs
  induction kvs with
  | nil =>
    intro m _ _ hlen
    show m.entries = (([] : List (String × α)).reverse ++ m.entries).take m.maxsize
    rw [List.reverse_nil, List.nil_append, List.take_of_length_le hlen]
  | cons kv kvs ih =>
    intro m hnd hfresh hlen
    obtain ⟨k, v⟩ := kv
    have hkfresh : k ∉ m.entries.map Prod.fst := hfresh k (by simp)
    have hstep : applyOps m (((k, v) :: kvs).map (fun kv => LRUOp.set kv.1 kv.2)) =
        applyOps (lruInsert m k v) (kvs.map (fun kv => LRUOp.set kv.1 kv.2)) := rfl
    rw [hstep]
    have hmax : (lruInsert m k v).maxsize = m.maxsize := rfl
    have hent : (lruInsert m k v).entries = ((k, v) :: m.entries).take m.maxsize :=
      lruInsert_fresh m k v hkfresh
    have hnd' : (kvs.map Prod.fst).Nodup := by
      simp only [List.map_cons, List.nodup_cons] at hnd
      exact hnd.2
    have hknotin : k ∉ kvs.map Prod.fst := by
      simp only [List.map_cons, List.nodup_cons] at hnd
      exact hnd.1
    have hfresh' : ∀ k' ∈ kvs.map Prod.fst, k' ∉ (lruInsert m k v).entries.map Prod.fst := by
      intro k' hk' hmem
      rw [hent] at hmem
      have hsub : ((((k, v) :: m.entries).take m.maxsize).map Prod.fst).Sublist
          (((k, v) :: m.entries).map Prod.fst) :=
        (List.take_sublist _ _).map Prod.fst
      have := hsub.subset hmem
      simp only [List.map_cons] at this
      rcases List.mem_cons.mp this with h | h
      · exact hknotin (h ▸ hk')
      · exact hfresh k' (List.mem_cons_of_mem _ hk') h
    have hlen' : (lruInsert m k v).entries.length ≤ (lruInsert m k v).maxsize := by
      rw [hent, hmax, List.length_take]
      exact min_le_left _ _
    have hres := ih (lruInsert m k v) hnd' hfresh' hlen'
    rw [hres, hmax, hent, take_append_take, List.reverse_cons, List.append_assoc,
      List.singleton_append]

/-- C8 counterexample: with capacity 1 a successful `get` does not protect
the key from the next eviction — after `set "a"`, a successful `get "a"`, and
`set "b"`, the entry `"a"` is gone, so "a successful get … is not the next
eviction victim" fails at capacity 1. -/
theorem c8_lru_capacity_counterexample :
    (lruGet (lruInsert (⟨1, []⟩ : LRUCache ℕ) "a" 0) "a").1 = some 0 ∧
    ((lruInsert (lruGet (lruInsert (⟨1, []⟩ : LRUCache ℕ) "a" 0) "a").2 "b" 1).entries.map
      Prod.fst) = ["b"] := by
  exact ⟨by decide, by decide⟩

/-- C8 amended: (i) whatever sequence of operations is applied to a fresh
local tier of capacity N, it never holds more than N entries; (ii) for every
capacity N ≥ 1, inserting N+1 distinct keys into a fresh tier evicts exactly
the first (least-recently-used) key and keeps the other N in recency order;
(iii) when capacity ≥ 2, a successful get refreshes the key's recency so it
survives the next insertion of any other key. -/
theorem c8_lru_properties (α : Type) :
    (∀ (cap : ℕ) (ops : List (LRUOp α)),
      (applyOps (⟨cap, []⟩ : LRUCache α) ops).entries.length ≤ cap) ∧
    (∀ (cap : ℕ) (kvs : List (String × α)), 1 ≤ cap → kvs.length = cap + 1 →
      (kvs.map Prod.fst).Nodup →
      (applyOps (⟨cap, []⟩ : LRUCache α) (kvs.map (fun kv => LRUOp.set kv.1 kv.2))).entries =
        (kvs.drop 1).reverse ∧
      (∀ kv₀ ∈ kvs.head?, kv₀.1 ∉ (kvs.drop 1).map Prod.fst)) ∧
    (∀ (m : LRUCache α) (k k' : String) (v v' : α), 2 ≤ m.maxsize →
      (lruGet m k).1 = some v →
      k ∈ (lruInsert (lruGet m k).2 k' v').entries.map Prod.fst) := by
  refine ⟨?_, ?_, ?_⟩
  · intro cap ops
    exact applyOps_length_le ops ⟨cap, []⟩ (by simp)
  · intro cap kvs hcap hlen hnd
    cases kvs with
    | nil => simp at hlen
    | cons kv₀ rest =>
      have hrest : rest.length = cap := by simpa using hlen
      constructor
      · have hfresh : ∀ k ∈ (kv₀ :: rest).map Prod.fst,
            k ∉ ((⟨cap, []⟩ : LRUCache α).entries.map Prod.fst) := by
          intro k _
          simp
        have h := applyOps_set_fresh (kv₀ :: rest) ⟨cap, []⟩ hnd hfresh (by simp)
        rw [h]
        show ((kv₀ :: rest).reverse ++ []).take cap = rest.reverse
        rw [List.append_nil, List.reverse_cons]
        exact List.take_left' (by simpa using hrest)
      · intro kv hkv
        simp only [List.head?_cons, Option.mem_def, Option.some.injEq] at hkv
        subst hkv
        simp only [List.map_cons, List.nodup_cons] at hnd
        simpa using hnd.1
  · intro m k k' v v' hcap hget
    dsimp only [lruGet] at hget ⊢
    cases hf : m.entries.find? (fun e => e.1 == k) with
    | none =>
      rw [hf] at hget
      exact Option.noConfusion hget
    | some e =>
      rw [hf] at hget
      dsimp only at hget ⊢
      have hek : e.1 = k := by
        have hb := List.find?_some hf
        simpa using hb
      dsimp only [lruInsert]
      by_cases hkk : k' = k
      · subst hkk
        obtain ⟨c, hc⟩ : ∃ c, m.maxsize = c + 1 := ⟨m.maxsize - 1, by omega⟩
        rw [hc, List.take_succ_cons]
        simp
      · have hcond : (e.1 != k') = true := by
          rw [bne_iff_ne, hek]
          exact fun h => hkk h.symm
        have hinner : ((e :: m.entries.filter (fun x => x.1 != k)).filter
            (fun x => x.1 != k')) = e :: ((m.entries.filter (fun x => x.1 != k)).filter
            (fun x => x.1 != k')) := by
          rw [List.filter_cons, if_pos hcond]
        obtain ⟨c, hc⟩ : ∃ c, m.maxsize = c + 2 := ⟨m.maxsize - 2, by omega⟩
        rw [hinner, hc, List.take_succ_cons, List.take_succ_cons]
        simp [hek]

/-- C8 witness: capacity 2, inserting the three distinct keys "a", "b", "c"
leaves exactly ["b", "c"] (in recency order ["c", "b"]), and after a get of
"x" in a full capacity-2 tier a fresh insertion evicts the other entry,
not "x". -/
theorem c8_lru_properties_witness :
    ((1 : ℕ) ≤ 2 ∧ ([("a", 0), ("b", 1), ("c", 2)] : List (String × ℕ)).length = 2 + 1 ∧
      (([("a", 0), ("b", 1), ("c", 2)] : List (String × ℕ)).map Prod.fst).Nodup ∧
      (applyOps (⟨2, []⟩ : LRUCache ℕ)
        (([("a", 0), ("b", 1), ("c", 2)] : List (String × ℕ)).map
          (fun kv => LRUOp.set kv.1 kv.2))).entries =
        (([("a", 0), ("b", 1), ("c", 2)] : List (String × ℕ)).drop 1).reverse) ∧
    ((2 : ℕ) ≤ (⟨2, [("x", 5), ("y", 6)]⟩ : LRUCache ℕ).maxsize ∧
      (lruGet (⟨2, [("x", 5), ("y", 6)]⟩ : LRUCache ℕ) "x").1 = some 5 ∧
      "x" ∈ (lruInsert (lruGet (⟨2, [("x", 5), ("y", 6)]⟩ : LRUCache ℕ) "x").2 "z" 7).entries.map
        Prod.fst) :=
  ⟨⟨by decide, by decide, by decide,
      ((c8_lru_properties ℕ).2.1 2 [("a", 0), ("b", 1), ("c", 2)] (by decide) (by decide)
        (by decide)).1⟩,
    ⟨by decide, by decide,
      (c8_lru_properties ℕ).2.2 ⟨2, [("x", 5), ("y", 6)]⟩ "x" "z" 5 7 (by decide) (by decide)⟩⟩

/-! ### Helper lemmas: retry engine -/

theorem retryGo_all_fail (f : ℕ → Except ε α) (e : ℕ → ε) :
    ∀ (n i : ℕ), (∀ j, j ≤ n → f (i + j) = .error (e (i + j))) →
      retryGo f i n = (.error (e (i + n)), n + 1) := by
  intro n
  induction n with
  | zero =>
    intro i h
    have h0 := h 0 (le_refl 0)
    rw [Nat.add_zero] at h0
    show (f i, 1) = (Except.error (e (i + 0)), 1)
    rw [Nat.add_zero, h0]
  | succ n ih =>
    intro i h
    have h0 := h 0 (Nat.zero_le _)
    rw [Nat.add_zero] at h0
    have hrec := ih (i + 1) (fun j hj => by
      have := h (j + 1) (by omega)
      rwa [show i + (j + 1) = i + 1 + j by omega] at this)
    show (match f i with
      | .ok a => (Except.ok a, 1)
      | .error _ => ((retryGo f (i + 1) n).1, (retryGo f (i + 1) n).2 + 1)) =
        (Except.error (e (i + (n + 1))), n + 1 + 1)
    rw [h0]
    dsimp only
    rw [hrec]
    dsimp only
    rw [show i + 1 + n = i + (n + 1) by omega]

theorem retryGo_fail_then_ok (f : ℕ → Except ε α) (e : ℕ → ε) (a : α) :
    ∀ (n i : ℕ), (∀ j, j < n → f (i + j) = .error (e (i + j))) → f (i + n) = .ok a →
      retryGo f i n = (.ok a, n + 1) := by
  intro n
  induction n with
  | zero =>
    intro i _ hok
    rw [Nat.add_zero] at hok
    show (f i, 1) = (Except.ok a, 1)
    rw [hok]
  | succ n ih =>
    intro i h hok
    have h0 := h 0 (Nat.zero_lt_succ n)
    rw [Nat.add_zero] at h0
    have hrec := ih (i + 1)
      (fun j hj => by
        have := h (j + 1) (by omega)
        rwa [show i + (j + 1) = i + 1 + j by omega] at this)
      (by rwa [show i + 1 + n = i + (n + 1) by omega])
    show (match f i with
      | .ok a => (Except.ok a, 1)
      | .error _ => ((retryGo f (i + 1) n).1, (retryGo f (i + 1) n).2 + 1)) =
        (Except.ok a, n + 1 + 1)
    rw [h0]
    dsimp only
    rw [hrec]

/-- C9: a call that fails transiently on every attempt before the last and
succeeds on attempt `maxRetries` returns the success having made exactly
`maxRetries` attempts; a call that fails on every attempt makes exactly
`maxRetries` attempts and propagates the final error. -/
theorem c9_retry_attempt_counts (f : ℕ → Except ε α) (e : ℕ → ε) (a : α)
    (m : ℕ) (hm : 1 ≤ m) :
    ((∀ i, i + 1 < m → f i = .error (e i)) → f (m - 1) = .ok a →
      retryCall f m = (.ok a, m)) ∧
    ((∀ i, i < m → f i = .error (e i)) → retryCall f m = (.error (e (m - 1)), m)) := by
  obtain ⟨n, rfl⟩ : ∃ n, m = n + 1 := ⟨m - 1, by omega⟩
  constructor
  · intro hf hok
    show retryGo f 0 (n + 1 - 1) = (Except.ok a, n + 1)
    rw [Nat.add_sub_cancel]
    exact retryGo_fail_then_ok f e a n 0
      (fun j hj => by
        rw [Nat.zero_add]
        exact hf j (by omega))
      (by rw [Nat.zero_add]; rwa [Nat.add_sub_cancel] at hok)
  · intro hf
    show retryGo f 0 (n + 1 - 1) = (Except.error (e (n + 1 - 1)), n + 1)
    rw [Nat.add_sub_cancel]
    have := retryGo_all_fail f e n 0 (fun j hj => by
      rw [Nat.zero_add]
      exact hf j (by omega))
    rwa [Nat.zero_add] at this

/-- C9 witness: two failures then success with budget 3 yields the success
in exactly 3 attempts; three failures with budget 3 yields the final error
in exactly 3 attempts. -/
theorem c9_retry_attempt_counts_witness :
    retryCall (fun i => if i < 2 then (Except.error i : Except ℕ ℕ) else .ok 42) 3 =
      (.ok 42, 3) ∧
    retryCall (fun i => (Except.error (i * 10) : Except ℕ ℕ)) 3 = (.error 20, 3) :=
  ⟨(c9_retry_attempt_counts _ (fun i => i) 42 3 (by decide)).1
      (fun i hi => by rw [if_pos (by omega)]) (by rfl),
    (c9_retry_attempt_counts _ (fun i => i * 10) 42 3 (by decide)).2 (fun i _ => rfl)⟩

/-- C2 counterexample: an upstream call that raises a fatal
(credential/quota-class) error on every attempt is not surfaced after the
first attempt: with `max_retries = 3` the engine makes 3 attempts — the
decorator has no retryable/non-retryable distinction. -/
theorem c2_fatal_retried_counterexample :
    retryCall (fun _ => (Except.error ErrKind.fatal : Except ErrKind Unit)) 3 =
      (.error ErrKind.fatal, 3) ∧ (3 : ℕ) ≠ 1 :=
  ⟨rfl, by decide⟩

/-- C2 amended: every error, fatal or transient, consumes the full retry
budget: a call failing with a fatal error on every attempt is retried until
`maxRetries` attempts have been made and only then surfaces the error. -/
theorem c2_all_errors_consume_retry_budget (α : Type) (f : ℕ → Except ErrKind α) (m : ℕ)
    (hm : 1 ≤ m) (hfail : ∀ i, i < m → f i = .error ErrKind.fatal) :
    retryCall f m = (.error ErrKind.fatal, m) := by
  obtain ⟨n, rfl⟩ : ∃ n, m = n + 1 := ⟨m - 1, by omega⟩
  show retryGo f 0 (n + 1 - 1) = (Except.error ErrKind.fatal, n + 1)
  rw [Nat.add_sub_cancel]
  have := retryGo_all_fail f (fun _ => ErrKind.fatal) n 0 (fun j hj => by
    rw [Nat.zero_add]
    exact hfail j (by omega))
  rwa [Nat.zero_add] at this

/-- C2 amended witness: three fatal failures with budget 3 make exactly
3 attempts and surface the fatal error. -/
theorem c2_all_errors_consume_retry_budget_witness :
    (1 : ℕ) ≤ 3 ∧
    retryCall (fun _ => (Except.error ErrKind.fatal : Except ErrKind ℕ)) 3 =
      (.error ErrKind.fatal, 3) :=
  ⟨by decide, c2_all_errors_consume_retry_budget ℕ _ 3 (by decide) (fun _ _ => rfl)⟩

/-! ### Helper lemmas: the `cached_search` wrapper -/

theorem lruGet_maxsize (m : LRUCache α) (k : String) : (lruGet m k).2.maxsize = m.maxsize := by
  dsimp only [lruGet]
  cases m.entries.find? (fun e => e.1 == k) <;> rfl

theorem lruGet_hit_stable (m : LRUCache α) (k : String) (v : α)
    (h : (lruGet m k).1 = some v) : (lruGet (lruGet m k).2 k).1 = some v := by
  dsimp only [lruGet] at h ⊢
  cases hf : m.entries.find? (fun e => e.1 == k) with
  | none =>
    rw [hf] at h
    exact Option.noConfusion h
  | some e =>
    rw [hf] at h
    dsimp only at h ⊢
    have hbeq := List.find?_some hf
    rw [@List.find?_cons_of_pos _ (fun x => x.1 == k) e
      (List.filter (fun x => x.1 != k) m.entries) hbeq]
    exact h

theorem cacheGet_eq_of_mem_hit (st : SearchCacheState α) (q : String)
    (ps : List (String × String)) (v : α) (he : st.enabled = true)
    (h : (lruGet st.memory (generateKeyString q ps)).1 = some v) :
    cacheGet st q ps =
      (some v, { st with memory := (lruGet st.memory (generateKeyString q ps)).2 }) := by
  dsimp only [cacheGet]
  simp only [he, if_true, ite_true]
  rw [h]

theorem cacheGet_eq_of_redis_hit (st : SearchCacheState α) (q : String)
    (ps : List (String × String)) (r : List (String × α)) (e : String × α)
    (he : st.enabled = true)
    (hm : (lruGet st.memory (generateKeyString q ps)).1 = none)
    (hr : st.redis = some r)
    (hf : r.find? (fun x => x.1 == generateKeyString q ps) = some e) :
    cacheGet st q ps =
      (some e.2, { st with memory := lruInsert st.memory (generateKeyString q ps) e.2 }) := by
  dsimp only [cacheGet]
  simp only [he, if_true, ite_true]
  rw [hm]
  dsimp only
  rw [hr]
  dsimp only
  rw [hf]

theorem cacheGet_eq_of_miss (st : SearchCacheState α) (q : String)
    (ps : List (String × String)) (he : st.enabled = true)
    (hm : (lruGet st.memory (generateKeyString q ps)).1 = none)
    (hr : st.redis = none ∨ ∃ r, st.redis = some r ∧
      r.find? (fun x => x.1 == generateKeyString q ps) = none) :
    cacheGet st q ps = (none, st) := by
  dsimp only [cacheGet]
  simp only [he, if_true, ite_true]
  rw [hm]
  dsimp only
  rcases hr with h | ⟨r, hr, hf⟩
  · rw [h]
  · rw [hr]
    dsimp only
    rw [hf]

theorem cacheGet_eq_of_disabled (st : SearchCacheState α) (q : String)
    (ps : List (String × String)) (he : st.enabled = false) :
    cacheGet st q ps = (none, st) := by
  dsimp only [cacheGet]
  simp only [he, Bool.false_eq_true, if_false, ite_false]

theorem cacheGet_state_fields (st : SearchCacheState α) (q : String)
    (ps : List (String × String)) :
    (cacheGet st q ps).2.enabled = st.enabled ∧
    (cacheGet st q ps).2.memory.maxsize = st.memory.maxsize := by
  cases he : st.enabled with
  | false => rw [cacheGet_eq_of_disabled st q ps he]; exact ⟨he, rfl⟩
  | true =>
    cases h1 : (lruGet st.memory (generateKeyString q ps)).1 with
    | some v =>
      rw [cacheGet_eq_of_mem_hit st q ps v he h1]
      exact ⟨he, lruGet_maxsize st.memory (generateKeyString q ps)⟩
    | none =>
      cases hr : st.redis with
      | none => rw [cacheGet_eq_of_miss st q ps he h1 (Or.inl hr)]; exact ⟨he, rfl⟩
      | some r =>
        cases hf : r.find? (fun x => x.1 == generateKeyString q ps) with
        | none =>
          rw [cacheGet_eq_of_miss st q ps he h1 (Or.inr ⟨r, hr, hf⟩)]
          exact ⟨he, rfl⟩
        | some e =>
          rw [cacheGet_eq_of_redis_hit st q ps r e he h1 hr hf]
          exact ⟨he, rfl⟩

theorem cacheGet_cacheSet_same (st : SearchCacheState α) (q : String) (v : α)
    (ps : List (String × String)) (he : st.enabled = true) (hc : 1 ≤ st.memory.maxsize) :
    (cacheGet (cacheSet st q v ps) q ps).1 = some v := by
  dsimp only [cacheSet, cacheGet]
  simp only [he, if_true, ite_true]
  rw [lruGet_lruInsert_same st.memory (generateKeyString q ps) v hc]

theorem cacheGet_hit_stable (st : SearchCacheState α) (q : String)
    (ps : List (String × String)) (v : α) (hc : 1 ≤ st.memory.maxsize)
    (hhit : (cacheGet st q ps).1 = some v) :
    (cacheGet (cacheGet st q ps).2 q ps).1 = some v := by
  cases he : st.enabled with
  | false =>
    rw [cacheGet_eq_of_disabled st q ps he] at hhit
    exact Option.noConfusion hhit
  | true =>
    cases h1 : (lruGet st.memory (generateKeyString q ps)).1 with
    | some w =>
      have heq := cacheGet_eq_of_mem_hit st q ps w he h1
      have hv : some w = some v := by rw [heq] at hhit; exact hhit
      have h2 := lruGet_hit_stable st.memory (generateKeyString q ps) w h1
      have hsecond := cacheGet_eq_of_mem_hit
        ⟨st.enabled, (lruGet st.memory (generateKeyString q ps)).2, st.redis⟩ q ps w he h2
      rw [heq]
      exact (congrArg Prod.fst hsecond).trans hv
    | none =>
      cases hr : st.redis with
      | none =>
        rw [cacheGet_eq_of_miss st q ps he h1 (Or.inl hr)] at hhit
        exact Option.noConfusion hhit
      | some r =>
        cases hf : r.find? (fun x => x.1 == generateKeyString q ps) with
        | none =>
          rw [cacheGet_eq_of_miss st q ps he h1 (Or.inr ⟨r, hr, hf⟩)] at hhit
          exact Option.noConfusion hhit
        | some e =>
          have heq := cacheGet_eq_of_redis_hit st q ps r e he h1 hr hf
          have hv : some e.2 = some v := by rw [heq] at hhit; exact hhit
          have h2 := lruGet_lruInsert_same st.memory (generateKeyString q ps) e.2 hc
          have hsecond := cacheGet_eq_of_mem_hit
            ⟨st.enabled, lruInsert st.memory (generateKeyString q ps) e.2, st.redis⟩ q ps e.2 he h2
          rw [heq]
          exact (congrArg Prod.fst hsecond).trans hv

theorem cachedSearch_of_hit (t : α → Bool) (up : String → List (String × String) → α)
    (st : ClientState α) (q : String) (ps : List (String × String)) (v : α)
    (hhit : (cacheGet st.cache q ps).1 = some v) (ht : t v = true) :
    cachedSearch t up st q ps = (v, ⟨(cacheGet st.cache q ps).2, st.upstreamCalls⟩) := by
  dsimp only [cachedSearch]
  rw [hhit]
  dsimp only
  simp only [ht, if_true, ite_true]

theorem cachedSearch_of_no_hit (t : α → Bool) (up : String → List (String × String) → α)
    (st : ClientState α) (q : String) (ps : List (String × String))
    (hmf : (cacheGet st.cache q ps).1 = none ∨
      ∃ v, (cacheGet st.cache q ps).1 = some v ∧ t v = false) :
    cachedSearch t up st q ps =
      (up q ps, ⟨cacheSet (cacheGet st.cache q ps).2 q (up q ps) ps,
        st.upstreamCalls + 1⟩) := by
  dsimp only [cachedSearch]
  rcases hmf with h | ⟨v, hv, ht⟩
  · rw [h]
  · rw [hv]
    dsimp only
    simp only [ht, Bool.false_eq_true, if_false, ite_false]

theorem cachedSearch_served_cached (t : α → Bool) (up : String → List (String × String) → α)
    (st : ClientState α) (q : String) (ps : List (String × String))
    (he : st.cache.enabled = true) (hc : 1 ≤ st.cache.memory.maxsize) :
    (cacheGet (cachedSearch t up st q ps).2.cache q ps).1 =
      some (cachedSearch t up st q ps).1 := by
  have hf := cacheGet_state_fields st.cache q ps
  cases hres : (cacheGet st.cache q ps).1 with
  | some v =>
    cases ht : t v with
    | true =>
      rw [cachedSearch_of_hit t up st q ps v hres ht]
      exact cacheGet_hit_stable st.cache q ps v hc hres
    | false =>
      rw [cachedSearch_of_no_hit t up st q ps (Or.inr ⟨v, hres, ht⟩)]
      exact cacheGet_cacheSet_same _ q _ ps (hf.1.trans he) (by rw [hf.2]; exact hc)
  | none =>
    rw [cachedSearch_of_no_hit t up st q ps (Or.inl hres)]
    exact cacheGet_cacheSet_same _ q _ ps (hf.1.trans he) (by rw [hf.2]; exact hc)

/-- C10: the `cached_search` wrapper tests the cached payload with Python
truthiness, so a stored falsy payload (e.g. an empty dict) is treated as a
miss: the upstream function runs again, the entry is overwritten with the new
result, and only truthy payloads are ever served from the cache without an
upstream call. -/
theorem c10_falsy_cached_payload
    (up : String → List (String × String) → List (String × String))
    (st : ClientState (List (String × String))) (q : String) (ps : List (String × String))
    (v : List (String × String)) (st₁ : SearchCacheState (List (String × String)))
    (hhit : cacheGet st.cache q ps = (some v, st₁)) (hfalsy : pyDictTruthy v = false)
    (he : st.cache.enabled = true) (hc : 1 ≤ st.cache.memory.maxsize) :
    (cachedSearch pyDictTruthy up st q ps).1 = up q ps ∧
    (cachedSearch pyDictTruthy up st q ps).2.upstreamCalls = st.upstreamCalls + 1 ∧
    (cacheGet (cachedSearch pyDictTruthy up st q ps).2.cache q ps).1 = some (up q ps) ∧
    (∀ st' : ClientState (List (String × String)),
      (cachedSearch pyDictTruthy up st' q ps).2.upstreamCalls = st'.upstreamCalls →
        pyDictTruthy (cachedSearch pyDictTruthy up st' q ps).1 = true) := by
  have h1 : (cacheGet st.cache q ps).1 = some v := by rw [hhit]
  have heq := cachedSearch_of_no_hit pyDictTruthy up st q ps (Or.inr ⟨v, h1, hfalsy⟩)
  have hf := cacheGet_state_fields st.cache q ps
  refine ⟨by rw [heq], by rw [heq], ?_, ?_⟩
  · rw [heq]
    exact cacheGet_cacheSet_same _ q _ ps (hf.1.trans he) (by rw [hf.2]; exact hc)
  · intro st' hcount
    cases hres : (cacheGet st'.cache q ps).1 with
    | none =>
      have hmiss := cachedSearch_of_no_hit pyDictTruthy up st' q ps (Or.inl hres)
      rw [hmiss] at hcount
      exact absurd hcount (by simp)
    | some w =>
      cases ht : pyDictTruthy w with
      | true =>
        have hh := cachedSearch_of_hit pyDictTruthy up st' q ps w hres ht
        rw [hh]
        exact ht
      | false =>
        have hmiss := cachedSearch_of_no_hit pyDictTruthy up st' q ps (Or.inr ⟨w, hres, ht⟩)
        rw [hmiss] at hcount
        exact absurd hcount (by simp)

/-- C10 witness: a cache prefilled with the empty dict for ("q", []) reports
a hit with a falsy payload, and the wrapper nevertheless invokes the
upstream function and returns its (truthy) result. -/
theorem c10_falsy_cached_payload_witness :
    cacheGet (⟨true, ⟨2, [(generateKeyString "q" [], ([] : List (String × String)))]⟩, none⟩ :
        SearchCacheState (List (String × String))) "q" [] =
      (some [], ⟨true, ⟨2, [(generateKeyString "q" [], [])]⟩, none⟩) ∧
    pyDictTruthy ([] : List (String × String)) = false ∧
    (cachedSearch pyDictTruthy (fun _ _ => [("k", "v")])
      (⟨(⟨true, ⟨2, [(generateKeyString "q" [], [])]⟩, none⟩ :
        SearchCacheState (List (String × String))), 0⟩ : ClientState (List (String × String)))
      "q" []).1 = [("k", "v")] :=
  ⟨rfl, rfl,
    (c10_falsy_cached_payload (fun _ _ => [("k", "v")])
      ⟨⟨true, ⟨2, [(generateKeyString "q" [], [])]⟩, none⟩, 0⟩ "q" [] []
      ⟨true, ⟨2, [(generateKeyString "q" [], [])]⟩, none⟩ rfl rfl rfl (by decide)).1⟩

/-- C1 amended: the cache sits around the upstream client, keyed by (query,
num_results, extra kwargs) — not by the filter parameters — and stores the
raw upstream payload: after any process call the cached value for that key is
exactly the raw payload `v` from which the returned response was computed by
re-scoring/re-filtering, and when that cached payload is truthy an identical
second process call performs no upstream invocation and deterministically
re-derives the identical response from the cached raw payload. -/
theorem c1_cache_raw_payload_reuse (up : String → List (String × String) → RawResults)
    (st : ClientState RawResults) (q : String) (n : ℕ) (fd ed : List String) (ms : ℚ)
    (kw : List (String × String))
    (he : st.cache.enabled = true) (hc : 1 ≤ st.cache.memory.maxsize) :
    ∃ v : RawResults,
      (cacheGet (processQuery up st q n fd ed ms kw).2.cache q
        (("num_results", toString n) :: kw)).1 = some v ∧
      (processQuery up st q n fd ed ms kw).1 = processRawResults v q fd ed ms ∧
      (rawTruthy v = true →
        (processQuery up (processQuery up st q n fd ed ms kw).2 q n fd ed ms kw).1 =
          (processQuery up st q n fd ed ms kw).1 ∧
        (processQuery up (processQuery up st q n fd ed ms kw).2 q n fd ed ms kw).2.upstreamCalls
          = (processQuery up st q n fd ed ms kw).2.upstreamCalls) := by
  refine ⟨(cachedSearch rawTruthy up st q (("num_results", toString n) :: kw)).1, ?_, rfl, ?_⟩
  · exact cachedSearch_served_cached rawTruthy up st q _ he hc
  · intro htr
    have hhit2 := cachedSearch_served_cached rawTruthy up st q
      (("num_results", toString n) :: kw) he hc
    have h2 := cachedSearch_of_hit rawTruthy up
      (cachedSearch rawTruthy up st q (("num_results", toString n) :: kw)).2 q
      (("num_results", toString n) :: kw)
      (cachedSearch rawTruthy up st q (("num_results", toString n) :: kw)).1 hhit2 htr
    constructor
    · show processRawResults (cachedSearch rawTruthy up
          (cachedSearch rawTruthy up st q (("num_results", toString n) :: kw)).2 q
          (("num_results", toString n) :: kw)).1 q fd ed ms =
        processRawResults (cachedSearch rawTruthy up st q
          (("num_results", toString n) :: kw)).1 q fd ed ms
      rw [h2]
    · show (cachedSearch rawTruthy up
          (cachedSearch rawTruthy up st q (("num_results", toString n) :: kw)).2 q
          (("num_results", toString n) :: kw)).2.upstreamCalls =
        (cachedSearch rawTruthy up st q (("num_results", toString n) :: kw)).2.upstreamCalls
      rw [h2]

/-- C1 counterexample: on a concrete run the value the pipeline stores in the
cache is the raw upstream payload, not the filtered/sorted response: the
first process call (min score 0.5) returns no items, yet the cache holds
`plainRaw`, which still contains the below-threshold item; a second call with
the same query and num_results but min score 0 is served from the cache (the
upstream count stays 1) and returns a non-empty item list — re-scoring and
re-filtering do happen after a hit, and the stored value was never the
assembled response. -/
theorem c1_cache_stores_raw_counterexample :
    (processQuery plainUpstream freshClient "zzz" 10 [] [] (1/2) []).1.items = [] ∧
    (cacheGet (processQuery plainUpstream freshClient "zzz" 10 [] [] (1/2) []).2.cache "zzz"
      [("num_results", toString 10)]).1 = some plainRaw ∧
    plainRaw.items = some [plainItem] ∧
    (processQuery plainUpstream freshClient "zzz" 10 [] [] (1/2) []).2.upstreamCalls = 1 ∧
    (processQuery plainUpstream
      (processQuery plainUpstream freshClient "zzz" 10 [] [] (1/2) []).2 "zzz" 10 [] [] 0
      []).1.items ≠ [] ∧
    (processQuery plainUpstream
      (processQuery plainUpstream freshClient "zzz" 10 [] [] (1/2) []).2 "zzz" 10 [] [] 0
      []).2.upstreamCalls = 1 := by
  have hresp1 : (processQuery plainUpstream freshClient "zzz" 10 [] [] (1/2) []).1 =
      processRawResults plainRaw "zzz" [] [] (1/2) := rfl
  have hresp2 : (processQuery plainUpstream
      (processQuery plainUpstream freshClient "zzz" 10 [] [] (1/2) []).2 "zzz" 10 [] [] 0
      []).1 = processRawResults plainRaw "zzz" [] [] 0 := rfl
  refine ⟨?_, rfl, rfl, rfl, ?_, rfl⟩
  · rw [hresp1]
    norm_num [processRawResults, plainRaw, keptItems, List.filterMap_cons, List.filterMap_nil,
      plain_score, List.insertionSort]
  · rw [hresp2]
    norm_num [processRawResults, plainRaw, keptItems, List.filterMap_cons, List.filterMap_nil,
      plain_score, List.insertionSort, List.orderedInsert]

/-- C1 witness: the amended statement applied to the concrete fresh client
and the constant upstream payload. -/
theorem c1_cache_raw_payload_reuse_witness :
    freshClient.cache.enabled = true ∧ 1 ≤ freshClient.cache.memory.maxsize ∧
    ∃ v : RawResults,
      (cacheGet (processQuery plainUpstream freshClient "abc" 10 [] [] 0 []).2.cache "abc"
        (("num_results", toString 10) :: [])).1 = some v ∧
      (processQuery plainUpstream freshClient "abc" 10 [] [] 0 []).1 =
        processRawResults v "abc" [] [] 0 ∧
      (rawTruthy v = true →
        (processQuery plainUpstream (processQuery plainUpstream freshClient "abc" 10 [] [] 0
          []).2 "abc" 10 [] [] 0 []).1 =
          (processQuery plainUpstream freshClient "abc" 10 [] [] 0 []).1 ∧
        (processQuery plainUpstream (processQuery plainUpstream freshClient "abc" 10 [] [] 0
          []).2 "abc" 10 [] [] 0 []).2.upstreamCalls =
          (processQuery plainUpstream freshClient "abc" 10 [] [] 0 []).2.upstreamCalls) :=
  ⟨rfl, by decide, c1_cache_raw_payload_reuse plainUpstream freshClient "abc" 10 [] [] 0 []
    rfl (by decide)⟩
